import Mathlib

/-!
Shallow embedding of the definition-path resolution and rendering engine
from src/librustc/ty/print/mod.rs.

The external definition store (TyCtxt queries: def_key, generics_of,
type_of, impl_trait_ref, parent) is modelled as a structure of functions.
The pluggable Printer sink is modelled canonically by a free `Path` tree
that records every sink call; the recursive resolver is written with
explicit fuel since the store is an arbitrary function and the parent
chain is only finitely deep under an external invariant.
-/

namespace RustcTyPrint

/-- DefId: (owning-crate id, intra-crate index). -/
structure DefId where
  krate : Nat
  index : Nat
deriving DecidableEq, Repr

/-- The segment kinds this module matches on: CrateRoot, Impl, ClosureExpr
are matched explicitly by the resolver; every other DefPathData variant
falls into the wildcard arm and is modelled by a named catch-all. -/
inductive DefPathData where
  | CrateRoot
  | Impl
  | ClosureExpr
  | Other (name : String)
deriving DecidableEq, Repr

structure DisambiguatedDefPathData where
  data : DefPathData
  disambiguator : Nat
deriving DecidableEq, Repr

/-- DefKey: parent index (within the same crate) plus disambiguated segment. -/
structure DefKey where
  parent : Option Nat
  disambiguated_data : DisambiguatedDefPathData
deriving DecidableEq, Repr

inductive GenericParamDefKind where
  | Lifetime
  | Type (has_default : Bool)
  | Const
deriving DecidableEq, Repr

structure GenericParamDef where
  index : Nat
  def_id : DefId
  kind : GenericParamDefKind
deriving DecidableEq, Repr

structure Generics where
  parent : Option DefId
  parent_count : Nat
  params : List GenericParamDef
  has_self : Bool
deriving DecidableEq, Repr

/-- `Generics::count()`: total parameter count, ancestors included. -/
def Generics.count (g : Generics) : Nat :=
  g.parent_count + g.params.length

mutual
/-- The type variants matched by characteristic_def_id_of_type. Fields the
source ignores with a wildcard and never folds under substitution (the
array length const, the region and mutability of references, existential
predicate lists beyond the principal) are elided; substitution lists
carried by nominal and function-like types are kept, because the
substitution folder rewrites them. Tuple components are always types
(the source asserts this with expect_ty), so they are stored directly. -/
inductive Ty where
  | Adt (did : DefId) (substs : List GenArg)
  | Dynamic (principal : Option DefId)
  | Array (subty : Ty)
  | Slice (subty : Ty)
  | RawPtr (ty : Ty)
  | Ref (ty : Ty)
  | Tuple (tys : List Ty)
  | FnDef (def_id : DefId) (substs : List GenArg)
  | Closure (def_id : DefId) (substs : List GenArg)
  | Generator (def_id : DefId) (substs : List GenArg)
  | Foreign (def_id : DefId)
  | Bool
  | Char
  | Int
  | Uint
  | Str
  | FnPtr
  | Projection
  | Placeholder
  | UnnormalizedProjection
  | Param (index : Nat)
  | OpaqueTy
  | Infer
  | Bound
  | Error
  | GeneratorWitness
  | Never
  | Float

/-- A generic-argument value (`Kind` in the source): a region, a type or a
const. Regions and const values are opaque to this module. -/
inductive GenArg where
  | lifetime (r : Nat)
  | type (t : Ty)
  | const (c : Nat)
end

mutual
def Ty.beq (x1 x2 : Ty) : Bool :=
  match x1, x2 with
  | .Adt d1 s1, .Adt d2 s2 => d1 = d2 && GenArg.beqList s1 s2
  | .Dynamic p1, .Dynamic p2 => p1 = p2
  | .Array t1, .Array t2 => Ty.beq t1 t2
  | .Slice t1, .Slice t2 => Ty.beq t1 t2
  | .RawPtr t1, .RawPtr t2 => Ty.beq t1 t2
  | .Ref t1, .Ref t2 => Ty.beq t1 t2
  | .Tuple l1, .Tuple l2 => Ty.beqList l1 l2
  | .FnDef d1 s1, .FnDef d2 s2 => d1 = d2 && GenArg.beqList s1 s2
  | .Closure d1 s1, .Closure d2 s2 => d1 = d2 && GenArg.beqList s1 s2
  | .Generator d1 s1, .Generator d2 s2 => d1 = d2 && GenArg.beqList s1 s2
  | .Foreign d1, .Foreign d2 => d1 = d2
  | .Bool, .Bool => true
  | .Char, .Char => true
  | .Int, .Int => true
  | .Uint, .Uint => true
  | .Str, .Str => true
  | .FnPtr, .FnPtr => true
  | .Projection, .Projection => true
  | .Placeholder, .Placeholder => true
  | .UnnormalizedProjection, .UnnormalizedProjection => true
  | .Param i1, .Param i2 => i1 = i2
  | .OpaqueTy, .OpaqueTy => true
  | .Infer, .Infer => true
  | .Bound, .Bound => true
  | .Error, .Error => true
  | .GeneratorWitness, .GeneratorWitness => true
  | .Never, .Never => true
  | .Float, .Float => true
  | _, _ => false
termination_by structural x1

def Ty.beqList (x1 x2 : List Ty) : Bool :=
  match x1, x2 with
  | [], [] => true
  | t1 :: l1, t2 :: l2 => Ty.beq t1 t2 && Ty.beqList l1 l2
  | _, _ => false
termination_by structural x1

def GenArg.beq (x1 x2 : GenArg) : Bool :=
  match x1, x2 with
  | .lifetime r1, .lifetime r2 => r1 = r2
  | .type t1, .type t2 => Ty.beq t1 t2
  | .const c1, .const c2 => c1 = c2
  | _, _ => false
termination_by structural x1

def GenArg.beqList (x1 x2 : List GenArg) : Bool :=
  match x1, x2 with
  | [], [] => true
  | a1 :: l1, a2 :: l2 => GenArg.beq a1 a2 && GenArg.beqList l1 l2
  | _, _ => false
termination_by structural x1
end

/-- TraitRef: (trait DefId, substitution). -/
structure TraitRef where
  def_id : DefId
  substs : List GenArg

/-- `TraitRef::self_ty()`: the first substitution entry, which must be a
type (`expect_ty`); the sentinel Ty.Error stands for the panic on
malformed data. -/
def TraitRef.self_ty (tr : TraitRef) : Ty :=
  match tr.substs.head? with
  | some (.type t) => t
  | _ => .Error

mutual
/-- The substitution folder (`Subst::subst`): replace each type parameter
by the positionally matching entry of the substitution. A missing or
non-type entry is a bug in the source (the folder panics); the sentinel
Ty.Error stands for that panic. Regions and const values are opaque here,
so the folder leaves lifetime and const arguments unchanged. -/
def substTy (s : List GenArg) : Ty → Ty
  | .Adt did args => .Adt did (substArgs s args)
  | .Dynamic p => .Dynamic p
  | .Array t => .Array (substTy s t)
  | .Slice t => .Slice (substTy s t)
  | .RawPtr t => .RawPtr (substTy s t)
  | .Ref t => .Ref (substTy s t)
  | .Tuple tys => .Tuple (substTys s tys)
  | .FnDef d args => .FnDef d (substArgs s args)
  | .Closure d args => .Closure d (substArgs s args)
  | .Generator d args => .Generator d (substArgs s args)
  | .Foreign d => .Foreign d
  | .Param i =>
    match s.get? i with
    | some (.type t) => t
    | _ => .Error
  | .Bool => .Bool
  | .Char => .Char
  | .Int => .Int
  | .Uint => .Uint
  | .Str => .Str
  | .FnPtr => .FnPtr
  | .Projection => .Projection
  | .Placeholder => .Placeholder
  | .UnnormalizedProjection => .UnnormalizedProjection
  | .OpaqueTy => .OpaqueTy
  | .Infer => .Infer
  | .Bound => .Bound
  | .Error => .Error
  | .GeneratorWitness => .GeneratorWitness
  | .Never => .Never
  | .Float => .Float

def substArg (s : List GenArg) : GenArg → GenArg
  | .lifetime r => .lifetime r
  | .type t => .type (substTy s t)
  | .const c => .const c

def substArgs (s : List GenArg) : List GenArg → List GenArg
  | [] => []
  | a :: l => substArg s a :: substArgs s l

def substTys (s : List GenArg) : List Ty → List Ty
  | [] => []
  | t :: l => substTy s t :: substTys s l
end

/-- `TraitRef::subst`: fold the substitution over the trait substitution
list. -/
def substTraitRef (s : List GenArg) (tr : TraitRef) : TraitRef :=
  { def_id := tr.def_id, substs := substArgs s tr.substs }

/-- `Option::<TraitRef>::subst`. -/
def substTraitRefOpt (s : List GenArg) : Option TraitRef → Option TraitRef
  | none => none
  | some tr => some (substTraitRef s tr)

/-- The read-only definition store: the TyCtxt queries this module uses
(def_key, generics_of, type_of, impl_trait_ref, parent). For an impl id,
type_of is its self-type; for a type-parameter id, its declared default. -/
structure Store where
  def_key : DefId → DefKey
  generics_of : DefId → Generics
  type_of : DefId → Ty
  impl_trait_ref : DefId → Option TraitRef
  parent : DefId → Option DefId

mutual
/-- characteristic_def_id_of_type: find a characteristic DefId for a type,
if any (the Representative-Type Finder). -/
def characteristic_def_id_of_type : Ty → Option DefId
  | .Adt adt_did _ => some adt_did
  | .Dynamic principal => principal
  | .Array subty => characteristic_def_id_of_type subty
  | .Slice subty => characteristic_def_id_of_type subty
  | .RawPtr mt => characteristic_def_id_of_type mt
  | .Ref ty => characteristic_def_id_of_type ty
  | .Tuple tys => characteristic_def_id_of_first tys
  | .FnDef def_id _ => some def_id
  | .Closure def_id _ => some def_id
  | .Generator def_id _ => some def_id
  | .Foreign def_id => some def_id
  | .Bool => none
  | .Char => none
  | .Int => none
  | .Uint => none
  | .Str => none
  | .FnPtr => none
  | .Projection => none
  | .Placeholder => none
  | .UnnormalizedProjection => none
  | .Param _ => none
  | .OpaqueTy => none
  | .Infer => none
  | .Bound => none
  | .Error => none
  | .GeneratorWitness => none
  | .Never => none
  | .Float => none

/-- The tuple case: `tys.iter().filter_map(characteristic_def_id_of_type).next()`,
the first component that yields an id. -/
def characteristic_def_id_of_first : List Ty → Option DefId
  | [] => none
  | ty :: tys =>
    match characteristic_def_id_of_type ty with
    | some did => some did
    | none => characteristic_def_id_of_first tys
end

/-- The canonical Printer sink: a free tree recording every sink call
(path_crate, path_qualified, path_append_impl, path_append,
path_generic_args). The deferred prefix continuation of the source is
evaluated into the `pre` subtree. -/
inductive Path where
  | crate (cnum : Nat)
  | qualified (self_ty : Ty) (trait_ref : Option TraitRef)
  | appendImpl (pre : Path) (dd : DisambiguatedDefPathData) (self_ty : Ty)
      (trait_ref : Option TraitRef)
  | append (pre : Path) (dd : DisambiguatedDefPathData)
  | genericArgs (pre : Path) (args : List GenArg)

/-- fatal models a panic (the CrateRoot assert or a parent unwrap);
outOfFuel is an artifact of the fuel embedding, never an outcome of the
source. -/
inductive PrintError where
  | fatal
  | outOfFuel
deriving DecidableEq, Repr

/-- The elision test of `generic_args_to_print`: its trailing take_while
closure. A parameter is dropped when it is a Type parameter with a
default and the instantiated default structurally equals the argument at
the parameter's index. Out-of-range indexing panics in the source; the
lifetime-0 placeholder makes the comparison false instead, which no claim
relies on (all claims assume the substitution covers the parameters). -/
def default_elidable (st : Store) (substs : List GenArg)
    (param : GenericParamDef) : Bool :=
  match param.kind with
  | .Lifetime => false
  | .Type has_default =>
    has_default &&
      GenArg.beq (substs.getD param.index (.lifetime 0))
        (.type (substTy substs (st.type_of param.def_id)))
  | .Const => false

/-- generic_args_to_print: slice the substitution to the own-parameter
range, skipping a leading implicit receiver and dropping the trailing
arguments that equal their instantiated defaults. -/
def generic_args_to_print (st : Store) (generics : Generics)
    (substs : List GenArg) : List GenArg :=
  let start0 := generics.parent_count
  let start := if generics.has_self && start0 == 0 then 1 else start0
  let dropped :=
    (generics.params.reverse.takeWhile (default_elidable st substs)).length
  let stop := generics.count - dropped
  (substs.take stop).drop start

/-- The in_self_mod test of default_print_impl_path: the characteristic
id of the self type has the impl's parent as its parent definition. -/
def in_self_mod (st : Store) (self_ty : Ty) (parent_def_id : DefId) : Bool :=
  match characteristic_def_id_of_type self_ty with
  | none => false
  | some ty_def_id => st.parent ty_def_id == some parent_def_id

/-- The in_trait_mod test of default_print_impl_path: a trait reference
is present and its trait definition has the impl's parent as its parent
definition. -/
def in_trait_mod (st : Store) (impl_trait_ref : Option TraitRef)
    (parent_def_id : DefId) : Bool :=
  match impl_trait_ref with
  | none => false
  | some trait_ref => st.parent trait_ref.def_id == some parent_def_id

mutual
/-- default_print_def_path, with explicit fuel standing for the depth of
the recursion into the store's parent chain. -/
def print_def_path (st : Store) : Nat → DefId → List GenArg →
    Except PrintError Path
  | 0, _, _ => .error .outOfFuel
  | fuel+1, def_id, substs =>
    let key := st.def_key def_id
    match key.disambiguated_data.data with
    | .CrateRoot =>
      if key.parent.isNone then .ok (.crate def_id.krate)
      else .error .fatal
    | .Impl =>
      let generics := st.generics_of def_id
      let self_ty := st.type_of def_id
      let impl_trait_ref := st.impl_trait_ref def_id
      if generics.count ≤ substs.length then
        print_impl_path st fuel def_id substs
          (substTy substs self_ty) (substTraitRefOpt substs impl_trait_ref)
      else
        print_impl_path st fuel def_id substs self_ty impl_trait_ref
    | _ =>
      match key.parent with
      | none => .error .fatal
      | some pidx =>
        let parent_def_id : DefId := ⟨def_id.krate, pidx⟩
        if substs.isEmpty then
          match print_def_path st fuel parent_def_id substs with
          | .ok pre => .ok (.append pre key.disambiguated_data)
          | .error e => .error e
        else
          let generics := st.generics_of def_id
          let parent_substs :=
            substs.take (min generics.parent_count substs.length)
          if key.disambiguated_data.data ≠ .ClosureExpr ∧
              ¬generics.params.isEmpty ∧ generics.count ≤ substs.length then
            let args := generic_args_to_print st generics substs
            match print_def_path st fuel def_id parent_substs with
            | .ok pre => .ok (.genericArgs pre args)
            | .error e => .error e
          else
            let trait_qualify_parent :=
              generics.has_self ∧ generics.parent = some parent_def_id ∧
              parent_substs.length = generics.parent_count ∧
              (st.generics_of parent_def_id).parent_count = 0
            let pre_result :=
              if trait_qualify_parent then
                let trait_ref : TraitRef := ⟨parent_def_id, parent_substs⟩
                Except.ok (Path.qualified trait_ref.self_ty (some trait_ref))
              else
                print_def_path st fuel parent_def_id parent_substs
            match pre_result with
            | .ok pre => .ok (.append pre key.disambiguated_data)
            | .error e => .error e

/-- default_print_impl_path: decide between the qualified form and the
append form; note the substitution argument is entirely unused
(`_substs` in the source). -/
def print_impl_path (st : Store) : Nat → DefId → List GenArg → Ty →
    Option TraitRef → Except PrintError Path
  | 0, _, _, _, _ => .error .outOfFuel
  | fuel+1, impl_def_id, _substs, self_ty, impl_trait_ref =>
    let key := st.def_key impl_def_id
    match key.parent with
    | none => .error .fatal
    | some pidx =>
      let parent_def_id : DefId := ⟨impl_def_id.krate, pidx⟩
      if !in_self_mod st self_ty parent_def_id &&
          !in_trait_mod st impl_trait_ref parent_def_id then
        match print_def_path st fuel parent_def_id [] with
        | .ok pre =>
          .ok (.appendImpl pre key.disambiguated_data self_ty impl_trait_ref)
        | .error e => .error e
      else
        .ok (.qualified self_ty impl_trait_ref)
end

/-- An upper bound on the number of parent steps from a definition to a
CrateRoot key: reaches_root st k d holds when the chain of def_key
parents starting at d meets a CrateRoot-kind key within k steps. This is
the finite-parent-chain store invariant of the specification. -/
def reaches_root (st : Store) : Nat → DefId → Bool
  | 0, d => (st.def_key d).disambiguated_data.data == .CrateRoot
  | k+1, d =>
    (st.def_key d).disambiguated_data.data == .CrateRoot ||
      match (st.def_key d).parent with
      | some i => reaches_root st k ⟨d.krate, i⟩
      | none => false

/-- A small well-formed store used for concrete runs: crate 0 holds a
crate root (0), a module bar (1), an item foo in bar with one defaultless
type parameter (2), an inherent impl in the root whose self type is the
Adt with id 7 (3), an impl with an uncovered parent parameter (4), a
trait Tr (5) and its method m (6); the Adt 7 is parented at the root. -/
def stW : Store where
  def_key d :=
    match d.index with
    | 0 => ⟨none, ⟨.CrateRoot, 0⟩⟩
    | 1 => ⟨some 0, ⟨.Other "bar", 0⟩⟩
    | 2 => ⟨some 1, ⟨.Other "foo", 0⟩⟩
    | 3 => ⟨some 0, ⟨.Impl, 0⟩⟩
    | 4 => ⟨some 0, ⟨.Impl, 0⟩⟩
    | 5 => ⟨some 0, ⟨.Other "Tr", 0⟩⟩
    | 6 => ⟨some 5, ⟨.Other "m", 0⟩⟩
    | _ => ⟨none, ⟨.CrateRoot, 0⟩⟩
  generics_of d :=
    match d.index with
    | 2 => ⟨none, 0, [⟨0, ⟨0, 99⟩, .Type false⟩], false⟩
    | 4 => ⟨none, 1, [], false⟩
    | 5 => ⟨none, 0, [⟨0, ⟨0, 98⟩, .Type false⟩], true⟩
    | 6 => ⟨some ⟨0, 5⟩, 1, [], true⟩
    | _ => ⟨none, 0, [], false⟩
  type_of d :=
    match d.index with
    | 3 => .Adt ⟨0, 7⟩ []
    | _ => .Error
  impl_trait_ref _ := none
  parent d :=
    match d.krate, d.index with
    | 0, 7 => some ⟨0, 0⟩
    | _, _ => none

/-- A corrupt store: every key claims kind CrateRoot while also
reporting a parent, violating the CrateRoot-has-no-parent invariant. -/
def stCorrupt : Store where
  def_key _ := ⟨some 0, ⟨.CrateRoot, 0⟩⟩
  generics_of _ := ⟨none, 0, [], false⟩
  type_of _ := .Error
  impl_trait_ref _ := none
  parent _ := none

/-- A cyclic store: every key names itself as its parent and never
reaches a CrateRoot, so the resolver recursion never bottoms out. -/
def stCyc : Store where
  def_key d := ⟨some d.index, ⟨.Other "loop", 0⟩⟩
  generics_of _ := ⟨none, 0, [], false⟩
  type_of _ := .Error
  impl_trait_ref _ := none
  parent _ := none

/-! Helper lemmas about takeWhile and dropWhile, used to characterize the
trailing-default elision scan. -/

theorem takeWhile_length_le {α : Type} (p : α → Bool) (l : List α) :
    (l.takeWhile p).length ≤ l.length := by
  have h := congrArg List.length (List.takeWhile_append_dropWhile (p := p) (l := l))
  rw [List.length_append] at h
  omega

theorem dropWhile_eq_drop_length_takeWhile {α : Type} (p : α → Bool) (l : List α) :
    l.dropWhile p = l.drop (l.takeWhile p).length := by
  induction l with
  | nil => rfl
  | cons a t ih =>
    by_cases h : p a = true
    · simp [List.dropWhile_cons, List.takeWhile_cons, h, ih]
    · simp only [Bool.not_eq_true] at h
      simp [List.dropWhile_cons, List.takeWhile_cons, h]

theorem takeWhile_dropWhile_eq_nil {α : Type} (p : α → Bool) (l : List α) :
    (l.dropWhile p).takeWhile p = [] := by
  have h := List.head?_dropWhile_not p l
  cases hd : l.dropWhile p with
  | nil => rfl
  | cons a t =>
    rw [hd] at h
    simp only [List.head?] at h
    rw [List.takeWhile_cons, h]
    simp

theorem drop_length_sub_takeWhile_reverse {α : Type} (p : α → Bool) (l : List α) :
    l.drop (l.length - (l.reverse.takeWhile p).length) =
      (l.reverse.takeWhile p).reverse := by
  have hsplit : l.reverse.takeWhile p ++ l.reverse.dropWhile p = l.reverse :=
    List.takeWhile_append_dropWhile (p := p) (l := l.reverse)
  have hl : l = (l.reverse.dropWhile p).reverse ++ (l.reverse.takeWhile p).reverse := by
    have h2 := congrArg List.reverse hsplit
    rw [List.reverse_append, List.reverse_reverse] at h2
    exact h2.symm
  have hlen : l.length - (l.reverse.takeWhile p).length =
      ((l.reverse.dropWhile p).reverse).length := by
    have h := congrArg List.length hsplit
    rw [List.length_append, List.length_reverse] at h
    simp only [List.length_reverse]
    omega
  set t := l.reverse.takeWhile p
  set e := l.reverse.dropWhile p
  rw [hlen]
  nth_rewrite 1 [hl]
  rw [List.drop_left]

theorem reverse_take_sub_takeWhile_reverse {α : Type} (p : α → Bool) (l : List α) :
    (l.take (l.length - (l.reverse.takeWhile p).length)).reverse =
      l.reverse.dropWhile p := by
  have hd : (l.reverse.takeWhile p).length ≤ l.length := by
    have h := takeWhile_length_le p l.reverse
    simpa using h
  rw [List.reverse_take]
  rw [dropWhile_eq_drop_length_takeWhile p l.reverse]
  congr 1
  omega

/-- The boundary element of the elision scan: if the scan stopped before
exhausting the list, the element just before the dropped suffix fails the
predicate. -/
theorem takeWhile_reverse_boundary {α : Type} (p : α → Bool) (l : List α)
    (hlt : (l.reverse.takeWhile p).length < l.length) :
    ∃ h : l.length - 1 - (l.reverse.takeWhile p).length < l.length,
      p (l.get ⟨l.length - 1 - (l.reverse.takeWhile p).length, h⟩) = false := by
  set d := (l.reverse.takeWhile p).length with hd
  have hidx : l.length - 1 - d < l.length := by omega
  refine ⟨hidx, ?_⟩
  have hrevlen : d < l.reverse.length := by simpa using hlt
  have hdw : l.reverse.dropWhile p = l.reverse.drop d := by
    rw [dropWhile_eq_drop_length_takeWhile p l.reverse]
  have hne : l.reverse.dropWhile p ≠ [] := by
    rw [hdw]
    intro hcon
    have h2 := congrArg List.length hcon
    simp at h2
    omega
  obtain ⟨a, t, hat⟩ := List.exists_cons_of_ne_nil hne
  have hhead := List.head?_dropWhile_not p l.reverse
  rw [hat] at hhead
  simp only [List.head?] at hhead
  have h5 : l.reverse[d]? = some a := by
    rw [← List.head?_drop, ← hdw, hat]
    rfl
  have h3 : l.reverse.get ⟨d, hrevlen⟩ = a := by
    rw [List.getElem?_eq_getElem hrevlen] at h5
    rw [List.get_eq_getElem]
    exact Option.some.inj h5
  have hget : l.reverse.get ⟨d, hrevlen⟩ = l.get ⟨l.length - 1 - d, hidx⟩ := by
    rw [List.get_eq_getElem, List.get_eq_getElem]
    exact List.getElem_reverse _
  rw [hget] at h3
  rw [h3, hhead]

/-- C7 helper: the tuple scan is the first component yielding an id. -/
theorem characteristic_def_id_of_first_eq_findSome? (tys : List Ty) :
    characteristic_def_id_of_first tys = tys.findSome? characteristic_def_id_of_type := by
  induction tys with
  | nil => rfl
  | cons t rest ih =>
    rw [List.findSome?_cons]
    rw [characteristic_def_id_of_first]
    cases characteristic_def_id_of_type t <;> simp [ih]

/-- C7: the Representative-Type Finder (characteristic_def_id_of_type, a
total Lean function by construction): a tuple returns the representative
id of the first component that yields one (none if no component does);
array, slice, raw-pointer and reference types recurse into the contained
element type; nominal, function-item, closure, generator and foreign
types return their own defining id; and the primitive/scalar,
function-pointer, placeholder, inference, bound, error, opaque and
projection types return none. -/
theorem characteristic_def_id_of_type_spec :
    (∀ tys : List Ty, characteristic_def_id_of_type (.Tuple tys) =
        tys.findSome? characteristic_def_id_of_type) ∧
    (∀ t : Ty, characteristic_def_id_of_type (.Array t) =
        characteristic_def_id_of_type t) ∧
    (∀ t : Ty, characteristic_def_id_of_type (.Slice t) =
        characteristic_def_id_of_type t) ∧
    (∀ t : Ty, characteristic_def_id_of_type (.RawPtr t) =
        characteristic_def_id_of_type t) ∧
    (∀ t : Ty, characteristic_def_id_of_type (.Ref t) =
        characteristic_def_id_of_type t) ∧
    (∀ (d : DefId) (s : List GenArg),
        characteristic_def_id_of_type (.Adt d s) = some d) ∧
    (∀ (d : DefId) (s : List GenArg),
        characteristic_def_id_of_type (.FnDef d s) = some d) ∧
    (∀ (d : DefId) (s : List GenArg),
        characteristic_def_id_of_type (.Closure d s) = some d) ∧
    (∀ (d : DefId) (s : List GenArg),
        characteristic_def_id_of_type (.Generator d s) = some d) ∧
    (∀ d : DefId, characteristic_def_id_of_type (.Foreign d) = some d) ∧
    characteristic_def_id_of_type .Bool = none ∧
    characteristic_def_id_of_type .Char = none ∧
    characteristic_def_id_of_type .Int = none ∧
    characteristic_def_id_of_type .Uint = none ∧
    characteristic_def_id_of_type .Str = none ∧
    characteristic_def_id_of_type .Float = none ∧
    characteristic_def_id_of_type .Never = none ∧
    characteristic_def_id_of_type .FnPtr = none ∧
    characteristic_def_id_of_type .Projection = none ∧
    characteristic_def_id_of_type .UnnormalizedProjection = none ∧
    characteristic_def_id_of_type .Placeholder = none ∧
    (∀ i : Nat, characteristic_def_id_of_type (.Param i) = none) ∧
    characteristic_def_id_of_type .OpaqueTy = none ∧
    characteristic_def_id_of_type .Infer = none ∧
    characteristic_def_id_of_type .Bound = none ∧
    characteristic_def_id_of_type .Error = none ∧
    characteristic_def_id_of_type .GeneratorWitness = none := by
  refine ⟨characteristic_def_id_of_first_eq_findSome?, ?_⟩
  repeat constructor <;> try (intros; rfl)

/-- C2: the Generic-Argument Filter returns the sub-range of the
substitution that starts at the own-parameter range (advanced past the
implicit receiver when the range starts at index 0) and ends before a
trailing block of d dropped parameters, every dropped parameter being a
Type parameter with a default whose instantiation against the full
substitution structurally equals the actual argument at its index, and
the scan stopping at the first parameter from the end that is not such
(first conjunct: a Lifetime or Const parameter, a Type parameter without
a default, or one with a mismatching instantiated default is never
elided). -/
theorem generic_args_to_print_spec (st : Store) (generics : Generics)
    (substs : List GenArg) :
    (∀ param : GenericParamDef,
      default_elidable st substs param = true ↔
        (param.kind = .Type true ∧
          GenArg.beq (substs.getD param.index (.lifetime 0))
            (.type (substTy substs (st.type_of param.def_id))) = true)) ∧
    (∃ d, d ≤ generics.params.length ∧
      generic_args_to_print st generics substs =
        (substs.take (generics.count - d)).drop
          (if generics.has_self ∧ generics.parent_count = 0 then 1
           else generics.parent_count) ∧
      (∀ param ∈ generics.params.drop (generics.params.length - d),
        default_elidable st substs param = true) ∧
      (d = generics.params.length ∨
        ∃ h : generics.params.length - 1 - d < generics.params.length,
          default_elidable st substs
            (generics.params.get ⟨generics.params.length - 1 - d, h⟩) = false)) := by
  constructor
  · intro param
    unfold default_elidable
    cases hk : param.kind
    · simp
    · rename_i hdef
      cases hdef <;> simp
    · simp
  · refine ⟨(generics.params.reverse.takeWhile (default_elidable st substs)).length,
      ?_, ?_, ?_, ?_⟩
    · have h := takeWhile_length_le (default_elidable st substs) generics.params.reverse
      simpa using h
    · have hstart :
          (if generics.has_self && generics.parent_count == 0 then 1
           else generics.parent_count) =
          (if generics.has_self ∧ generics.parent_count = 0 then 1
           else generics.parent_count) := by
        by_cases h1 : generics.has_self <;> by_cases h2 : generics.parent_count = 0 <;>
          simp [h1, h2]
      simp only [generic_args_to_print]
      rw [hstart]
    · intro param hmem
      rw [drop_length_sub_takeWhile_reverse] at hmem
      rw [List.mem_reverse] at hmem
      exact List.mem_takeWhile_imp hmem
    · by_cases hlen :
        (generics.params.reverse.takeWhile (default_elidable st substs)).length =
          generics.params.length
      · exact Or.inl hlen
      · refine Or.inr ?_
        have hlt :
            (generics.params.reverse.takeWhile (default_elidable st substs)).length <
              generics.params.length := by
          have h := takeWhile_length_le (default_elidable st substs) generics.params.reverse
          simp only [List.length_reverse] at h
          omega
        exact takeWhile_reverse_boundary _ _ hlt

/-- C9: the Generic-Argument Filter is idempotent: re-running the filter
against the same substitution with the parameter list already trimmed of
its trailing elidable block (the parameter list matching an
already-filtered, trailing-default-free argument list) returns the same
(unchanged) argument sub-range. -/
theorem generic_args_to_print_idem (st : Store) (generics : Generics)
    (substs : List GenArg) :
    generic_args_to_print st
      { generics with
        params := generics.params.take (generics.params.length -
          (generics.params.reverse.takeWhile (default_elidable st substs)).length) }
      substs =
    generic_args_to_print st generics substs := by
  have hd : (generics.params.reverse.takeWhile (default_elidable st substs)).length ≤
      generics.params.length := by
    have h := takeWhile_length_le (default_elidable st substs) generics.params.reverse
    simpa using h
  set P := default_elidable st substs
  set d := (generics.params.reverse.takeWhile P).length with hdd
  have hrev : (generics.params.take (generics.params.length - d)).reverse =
      generics.params.reverse.dropWhile P := by
    exact reverse_take_sub_takeWhile_reverse P generics.params
  have hzero : ((generics.params.take (generics.params.length - d)).reverse.takeWhile
      P).length = 0 := by
    rw [hrev, takeWhile_dropWhile_eq_nil]
    rfl
  unfold generic_args_to_print
  simp only [Generics.count]
  rw [hzero]
  have hlen : (generics.params.take (generics.params.length - d)).length =
      generics.params.length - d := by
    simp [List.length_take]
  rw [hlen]
  have harith : generics.parent_count + (generics.params.length - d) - 0 =
      generics.parent_count + generics.params.length - d := by omega
  rw [harith]

theorem in_self_mod_iff (st : Store) (self_ty : Ty) (parent_def_id : DefId) :
    in_self_mod st self_ty parent_def_id = true ↔
      ∃ d, characteristic_def_id_of_type self_ty = some d ∧
        st.parent d = some parent_def_id := by
  unfold in_self_mod
  cases h : characteristic_def_id_of_type self_ty <;> simp [h]

theorem in_trait_mod_iff (st : Store) (impl_trait_ref : Option TraitRef)
    (parent_def_id : DefId) :
    in_trait_mod st impl_trait_ref parent_def_id = true ↔
      ∃ tr, impl_trait_ref = some tr ∧
        st.parent tr.def_id = some parent_def_id := by
  unfold in_trait_mod
  cases h : impl_trait_ref <;> simp [h]

/-- C5: on a definition whose path key has kind CrateRoot, if the key
reports a parent the resolution aborts with the fatal invariant
violation and produces no sink call; if it has no parent it yields
exactly the single path_crate sink call for the definition's crate (the
base case: Path.crate contains no other sink call). -/
theorem print_def_path_crate_root (st : Store) (fuel : Nat) (def_id : DefId)
    (substs : List GenArg)
    (hroot : (st.def_key def_id).disambiguated_data.data = .CrateRoot) :
    ((st.def_key def_id).parent.isSome →
      print_def_path st (fuel+1) def_id substs = .error .fatal) ∧
    ((st.def_key def_id).parent = none →
      print_def_path st (fuel+1) def_id substs = .ok (.crate def_id.krate)) := by
  constructor
  · intro hp
    simp only [print_def_path, hroot]
    have hfalse : (st.def_key def_id).parent.isNone = false := by
      cases h : (st.def_key def_id).parent
      · rw [h] at hp; simp at hp
      · rfl
    rw [hfalse]
    simp
  · intro hp
    simp only [print_def_path, hroot, hp]
    rfl

/-- C6: on a definition whose path key has kind Impl, the resolver
delegates to print_impl_path, instantiating the self-type and the trait
reference against the substitution exactly when the substitution's
length covers the impl's full parameter count, and passing them
uninstantiated otherwise. -/
theorem print_def_path_impl (st : Store) (fuel : Nat) (def_id : DefId)
    (substs : List GenArg)
    (himpl : (st.def_key def_id).disambiguated_data.data = .Impl) :
    (((st.generics_of def_id).count ≤ substs.length →
      print_def_path st (fuel+1) def_id substs =
        print_impl_path st fuel def_id substs
          (substTy substs (st.type_of def_id))
          (substTraitRefOpt substs (st.impl_trait_ref def_id))) ∧
    (substs.length < (st.generics_of def_id).count →
      print_def_path st (fuel+1) def_id substs =
        print_impl_path st fuel def_id substs
          (st.type_of def_id) (st.impl_trait_ref def_id))) := by
  constructor
  · intro hcov
    simp only [print_def_path, himpl]
    rw [if_pos hcov]
  · intro hlt
    simp only [print_def_path, himpl]
    rw [if_neg (by omega)]

/-- C1: print_impl_path renders the qualified form (self_ty, trait_ref),
with no module prefix, exactly when the representative id of the self
type has a parent equal to the impl's parent or a trait reference is
present whose trait definition's parent equals the impl's parent; when
neither holds it renders the append form, the parent path with an impl
segment carrying (self_ty, trait_ref) appended on top. -/
theorem print_impl_path_qualified_iff (st : Store) (fuel : Nat)
    (impl_def_id : DefId) (substs : List GenArg) (self_ty : Ty)
    (impl_trait_ref : Option TraitRef) (pidx : Nat)
    (hp : (st.def_key impl_def_id).parent = some pidx) :
    ((print_impl_path st (fuel+1) impl_def_id substs self_ty impl_trait_ref =
        .ok (.qualified self_ty impl_trait_ref)) ↔
      ((∃ d, characteristic_def_id_of_type self_ty = some d ∧
          st.parent d = some ⟨impl_def_id.krate, pidx⟩) ∨
       (∃ tr, impl_trait_ref = some tr ∧
          st.parent tr.def_id = some ⟨impl_def_id.krate, pidx⟩))) ∧
    (¬((∃ d, characteristic_def_id_of_type self_ty = some d ∧
          st.parent d = some ⟨impl_def_id.krate, pidx⟩) ∨
       (∃ tr, impl_trait_ref = some tr ∧
          st.parent tr.def_id = some ⟨impl_def_id.krate, pidx⟩)) →
      print_impl_path st (fuel+1) impl_def_id substs self_ty impl_trait_ref =
        (print_def_path st fuel ⟨impl_def_id.krate, pidx⟩ []).map
          (fun pre => .appendImpl pre (st.def_key impl_def_id).disambiguated_data
            self_ty impl_trait_ref)) := by
  simp only [print_impl_path, hp]
  by_cases h1 : in_self_mod st self_ty ⟨impl_def_id.krate, pidx⟩ = true <;>
    by_cases h2 : in_trait_mod st impl_trait_ref ⟨impl_def_id.krate, pidx⟩ = true
  · rw [if_neg (by simp [h1, h2])]
    constructor
    · simp only [true_iff]
      exact Or.inl ((in_self_mod_iff st self_ty _).mp h1)
    · intro hn
      exact absurd (Or.inl ((in_self_mod_iff st self_ty _).mp h1)) hn
  · rw [if_neg (by simp [h1, h2])]
    constructor
    · simp only [true_iff]
      exact Or.inl ((in_self_mod_iff st self_ty _).mp h1)
    · intro hn
      exact absurd (Or.inl ((in_self_mod_iff st self_ty _).mp h1)) hn
  · rw [if_neg (by simp [h1, h2])]
    constructor
    · simp only [true_iff]
      exact Or.inr ((in_trait_mod_iff st impl_trait_ref _).mp h2)
    · intro hn
      exact absurd (Or.inr ((in_trait_mod_iff st impl_trait_ref _).mp h2)) hn
  · rw [if_pos (by simp [h1, h2])]
    have hnor : ¬((∃ d, characteristic_def_id_of_type self_ty = some d ∧
          st.parent d = some ⟨impl_def_id.krate, pidx⟩) ∨
       (∃ tr, impl_trait_ref = some tr ∧
          st.parent tr.def_id = some ⟨impl_def_id.krate, pidx⟩)) := by
      rw [not_or]
      constructor
      · intro hc
        exact h1 ((in_self_mod_iff st self_ty _).mpr hc)
      · intro hc
        exact h2 ((in_trait_mod_iff st impl_trait_ref _).mpr hc)
    constructor
    · constructor
      · intro hq
        cases hres : print_def_path st fuel ⟨impl_def_id.krate, pidx⟩ [] <;>
          rw [hres] at hq <;> simp at hq
      · intro hor
        exact absurd hor hnor
    · intro _
      cases hres : print_def_path st fuel ⟨impl_def_id.krate, pidx⟩ [] <;>
        simp [hres, Except.map]

/-- C10: in the append form (neither in_self_mod nor in_trait_mod), the
parent path prefix is printed with the empty substitution, and the whole
result does not depend on the substitution passed to print_impl_path:
ancestor-level generic arguments are discarded from the parent prefix. -/
theorem print_impl_path_parent_empty_substs (st : Store) (fuel : Nat)
    (impl_def_id : DefId) (substs substs' : List GenArg) (self_ty : Ty)
    (impl_trait_ref : Option TraitRef) (pidx : Nat)
    (hp : (st.def_key impl_def_id).parent = some pidx)
    (hns : in_self_mod st self_ty ⟨impl_def_id.krate, pidx⟩ = false)
    (hnt : in_trait_mod st impl_trait_ref ⟨impl_def_id.krate, pidx⟩ = false) :
    print_impl_path st (fuel+1) impl_def_id substs self_ty impl_trait_ref =
      (print_def_path st fuel ⟨impl_def_id.krate, pidx⟩ []).map
        (fun pre => .appendImpl pre (st.def_key impl_def_id).disambiguated_data
          self_ty impl_trait_ref) ∧
    print_impl_path st (fuel+1) impl_def_id substs self_ty impl_trait_ref =
      print_impl_path st (fuel+1) impl_def_id substs' self_ty impl_trait_ref := by
  constructor
  · simp only [print_impl_path, hp]
    rw [if_pos (by simp [hns, hnt])]
    cases hres : print_def_path st fuel ⟨impl_def_id.krate, pidx⟩ [] <;>
      simp [hres, Except.map]
  · simp only [print_impl_path, hp]

/-- C3: for a non-impl, non-crate-root definition with a non-empty
substitution, outside the generic-arguments path shape, the prefix under
the appended segment is the qualified form of a trait reference built
from the parent id and the parent substitution exactly when the
definition's parameter list has an implicit receiver, its parent pointer
equals the parent id, the parent substitution's length equals the
parent-parameter count and the parent's own parent-parameter count is
zero; otherwise the prefix is the recursive print of the parent with the
parent substitution. -/
theorem print_def_path_trait_qualify (st : Store) (fuel : Nat) (def_id : DefId)
    (substs : List GenArg) (pidx : Nat)
    (hd1 : (st.def_key def_id).disambiguated_data.data ≠ .CrateRoot)
    (hd2 : (st.def_key def_id).disambiguated_data.data ≠ .Impl)
    (hp : (st.def_key def_id).parent = some pidx)
    (hne : substs ≠ [])
    (hnsc : ¬((st.def_key def_id).disambiguated_data.data ≠ .ClosureExpr ∧
        ¬(st.generics_of def_id).params.isEmpty ∧
        (st.generics_of def_id).count ≤ substs.length)) :
    (((st.generics_of def_id).has_self ∧
      (st.generics_of def_id).parent = some ⟨def_id.krate, pidx⟩ ∧
      (substs.take (min (st.generics_of def_id).parent_count substs.length)).length =
        (st.generics_of def_id).parent_count ∧
      (st.generics_of ⟨def_id.krate, pidx⟩).parent_count = 0) →
      print_def_path st (fuel+1) def_id substs =
        .ok (.append
          (.qualified
            (TraitRef.mk ⟨def_id.krate, pidx⟩
              (substs.take (min (st.generics_of def_id).parent_count substs.length))).self_ty
            (some ⟨⟨def_id.krate, pidx⟩,
              substs.take (min (st.generics_of def_id).parent_count substs.length)⟩))
          (st.def_key def_id).disambiguated_data)) ∧
    (¬((st.generics_of def_id).has_self ∧
      (st.generics_of def_id).parent = some ⟨def_id.krate, pidx⟩ ∧
      (substs.take (min (st.generics_of def_id).parent_count substs.length)).length =
        (st.generics_of def_id).parent_count ∧
      (st.generics_of ⟨def_id.krate, pidx⟩).parent_count = 0) →
      print_def_path st (fuel+1) def_id substs =
        (print_def_path st fuel ⟨def_id.krate, pidx⟩
          (substs.take (min (st.generics_of def_id).parent_count substs.length))).map
          (fun pre => .append pre (st.def_key def_id).disambiguated_data)) := by
  have hem : substs.isEmpty = false := by
    cases substs
    · exact absurd rfl hne
    · rfl
  cases hdata : (st.def_key def_id).disambiguated_data.data with
  | CrateRoot => exact absurd hdata hd1
  | Impl => exact absurd hdata hd2
  | ClosureExpr =>
    simp only [print_def_path, hdata, hp, hem, Bool.false_eq_true, if_false]
    rw [if_neg (by simp)]
    constructor
    · intro htqp
      rw [if_pos htqp]
    · intro htqp
      rw [if_neg htqp]
      cases hres : print_def_path st fuel ⟨def_id.krate, pidx⟩
          (substs.take (min (st.generics_of def_id).parent_count substs.length)) <;>
        simp [hres, Except.map]
  | Other name =>
    simp only [hdata] at hnsc
    simp only [print_def_path, hdata, hp, hem, Bool.false_eq_true, if_false]
    rw [if_neg hnsc]
    constructor
    · intro htqp
      rw [if_pos htqp]
    · intro htqp
      rw [if_neg htqp]
      cases hres : print_def_path st fuel ⟨def_id.krate, pidx⟩
          (substs.take (min (st.generics_of def_id).parent_count substs.length)) <;>
        simp [hres, Except.map]

/-- A parameter-free list always filters to the empty argument list, so a
non-empty filter result forces a non-empty parameter list. -/
theorem generic_args_to_print_nil_of_params_nil (st : Store) (generics : Generics)
    (substs : List GenArg) (hnil : generics.params = []) :
    generic_args_to_print st generics substs = [] := by
  simp only [generic_args_to_print, Generics.count, hnil]
  by_cases h1 : generics.has_self <;> by_cases h2 : generics.parent_count = 0 <;>
    simp [h1, h2, List.drop_eq_nil_of_le, List.length_take]

/-- C4 (amended): for a non-impl, non-crate-root, non-closure definition
with a non-empty substitution, when the Generic-Argument Filter result is
non-empty and the substitution covers the full parameter count,
resolution short-circuits into the generic-arguments path shape: it
recursively prints the path of the same definition with the parent-level
prefix of the substitution (that recursive call is what appends this
segment) and asks the sink to append the filtered generic arguments on
top of it. -/
theorem print_def_path_generic_args_shape (st : Store) (fuel : Nat)
    (def_id : DefId) (substs : List GenArg) (pidx : Nat)
    (hd1 : (st.def_key def_id).disambiguated_data.data ≠ .CrateRoot)
    (hd2 : (st.def_key def_id).disambiguated_data.data ≠ .Impl)
    (hd3 : (st.def_key def_id).disambiguated_data.data ≠ .ClosureExpr)
    (hp : (st.def_key def_id).parent = some pidx)
    (hne : substs ≠ [])
    (hfil : generic_args_to_print st (st.generics_of def_id) substs ≠ [])
    (hcov : (st.generics_of def_id).count ≤ substs.length) :
    print_def_path st (fuel+1) def_id substs =
      (print_def_path st fuel def_id
        (substs.take (min (st.generics_of def_id).parent_count substs.length))).map
        (fun pre => .genericArgs pre
          (generic_args_to_print st (st.generics_of def_id) substs)) := by
  have hem : substs.isEmpty = false := by
    cases substs
    · exact absurd rfl hne
    · rfl
  have hpar : (st.generics_of def_id).params ≠ [] := by
    intro hnil
    exact hfil (generic_args_to_print_nil_of_params_nil st _ substs hnil)
  cases hdata : (st.def_key def_id).disambiguated_data.data with
  | CrateRoot => exact absurd hdata hd1
  | Impl => exact absurd hdata hd2
  | ClosureExpr => exact absurd hdata hd3
  | Other name =>
    simp only [print_def_path, hdata, hp, hem, Bool.false_eq_true, if_false]
    rw [if_pos ⟨by simp, by simpa using hpar, hcov⟩]
    cases hres : print_def_path st fuel def_id
        (substs.take (min (st.generics_of def_id).parent_count substs.length)) <;>
      simp [hres, Except.map]

/-- C4 counterexample: at the item foo (id 2 of stW, one defaultless type
parameter) with substitution [Int], the filter result is non-empty and
covering, and the code produces the generic-arguments shape over the
recursively printed path of foo itself (crate, bar, foo, then the
arguments on top); it does not equal the shape the claim describes, the
parent path bar printed with the parent-level prefix with the arguments
on top and no segment append for foo. -/
theorem print_def_path_generic_args_shape_cex :
    generic_args_to_print stW (stW.generics_of ⟨0, 2⟩) [.type .Int] =
      [.type .Int] ∧
    print_def_path stW 10 ⟨0, 2⟩ [.type .Int] =
      .ok (.genericArgs
        (.append (.append (.crate 0) ⟨.Other "bar", 0⟩) ⟨.Other "foo", 0⟩)
        [.type .Int]) ∧
    print_def_path stW 10 ⟨0, 2⟩ [.type .Int] ≠
      (print_def_path stW 9 ⟨0, 1⟩
        ([GenArg.type .Int].take
          (min (stW.generics_of ⟨0, 2⟩).parent_count [GenArg.type .Int].length))).map
        (fun pre => .genericArgs pre
          (generic_args_to_print stW (stW.generics_of ⟨0, 2⟩) [.type .Int])) := by
  refine ⟨rfl, rfl, ?_⟩
  intro hcon
  have h1 : print_def_path stW 10 ⟨0, 2⟩ [.type .Int] =
      .ok (.genericArgs
        (.append (.append (.crate 0) ⟨.Other "bar", 0⟩) ⟨.Other "foo", 0⟩)
        [.type .Int]) := rfl
  have h2 : (print_def_path stW 9 ⟨0, 1⟩
        ([GenArg.type .Int].take
          (min (stW.generics_of ⟨0, 2⟩).parent_count [GenArg.type .Int].length))).map
        (fun pre => .genericArgs pre
          (generic_args_to_print stW (stW.generics_of ⟨0, 2⟩) [.type .Int])) =
      Except.ok (Path.genericArgs
        (Path.append (Path.crate 0) ⟨.Other "bar", 0⟩) [GenArg.type .Int]) := rfl
  rw [h1, h2] at hcon
  simp at hcon


/-- C8: termination of the resolver. If the def_key parent chain from a
definition reaches a CrateRoot kind within k steps (the acyclic,
finitely-deep parent chain invariant of the store), then with fuel at
least 3k+1 the fuel-indexed print_def_path never reports fuel
exhaustion: the recursion is bounded by the chain depth. Without the
hypothesis the recursion is unbounded and only the fuel stops it: on a
store whose keys form a parent cycle every fuel is exhausted. -/
theorem print_def_path_terminates :
    (∀ (st : Store) (k : Nat) (d : DefId), reaches_root st k d = true →
      ∀ (fuel : Nat), 3 * k + 1 ≤ fuel → ∀ (substs : List GenArg),
        print_def_path st fuel d substs ≠ .error .outOfFuel) ∧
    (∀ (fuel : Nat) (d : DefId),
      print_def_path stCyc fuel d [] = .error .outOfFuel) := by
  constructor
  case right =>
    intro fuel
    induction fuel with
    | zero => intro d; rfl
    | succ f ihf =>
      intro d
      rw [print_def_path.eq_def]
      have hk : stCyc.def_key d = ⟨some d.index, ⟨.Other "loop", 0⟩⟩ := rfl
      simp only [hk, List.isEmpty_nil, if_true]
      rw [ihf ⟨d.krate, d.index⟩]
  intro st k
  induction k with
  | zero =>
    intro d hr fuel hf substs
    obtain ⟨f, rfl⟩ : ∃ f, fuel = f + 1 := ⟨fuel - 1, by omega⟩
    simp only [reaches_root, beq_iff_eq] at hr
    rw [print_def_path.eq_def]
    simp only [hr]
    split <;> simp
  | succ k ih =>
    intro d hr fuel hf substs
    obtain ⟨f, rfl⟩ : ∃ f, fuel = f + 1 := ⟨fuel - 1, by omega⟩
    obtain ⟨f1, rfl⟩ : ∃ f1, f = f1 + 1 := ⟨f - 1, by omega⟩
    simp only [reaches_root, Bool.or_eq_true, beq_iff_eq] at hr
    by_cases hdata0 : (st.def_key d).disambiguated_data.data = .CrateRoot
    · rw [print_def_path.eq_def]
      simp only [hdata0]
      split <;> simp
    · have hstep : (match (st.def_key d).parent with
          | some i => reaches_root st k ⟨d.krate, i⟩
          | none => false) = true := by
        rcases hr with hroot | hstep
        · exact absurd hroot hdata0
        · exact hstep
      obtain ⟨i, hp, hrk⟩ : ∃ i, (st.def_key d).parent = some i ∧
          reaches_root st k ⟨d.krate, i⟩ = true := by
        cases hp : (st.def_key d).parent with
        | none => rw [hp] at hstep; simp at hstep
        | some i => rw [hp] at hstep; exact ⟨i, rfl, hstep⟩
      have hparent : ∀ fu, 3 * k + 1 ≤ fu → ∀ s,
          print_def_path st fu ⟨d.krate, i⟩ s ≠ .error .outOfFuel :=
        fun fu hfu s => ih ⟨d.krate, i⟩ hrk fu hfu s
      cases hdata : (st.def_key d).disambiguated_data.data with
      | CrateRoot => exact absurd hdata hdata0
      | Impl =>
        rw [print_def_path.eq_def]
        simp only [hdata]
        have himpl : ∀ (s : List GenArg) (ty : Ty) (itr : Option TraitRef),
            print_impl_path st (f1+1) d s ty itr ≠ .error .outOfFuel := by
          intro s ty itr
          rw [print_impl_path.eq_def]
          simp only [hp]
          by_cases hloc : (!in_self_mod st ty ⟨d.krate, i⟩ &&
              !in_trait_mod st itr ⟨d.krate, i⟩) = true
          · simp only [hloc, if_true]
            have h8 := hparent f1 (by omega) []
            cases hres : print_def_path st f1 ⟨d.krate, i⟩ [] with
            | ok pre => simp
            | error e =>
              rw [hres] at h8
              simpa using h8
          · simp only [hloc, Bool.false_eq_true, if_false]
            simp
        split <;> exact himpl _ _ _
      | ClosureExpr =>
        rw [print_def_path.eq_def]
        simp only [hdata, hp]
        by_cases hsub : substs.isEmpty = true
        · simp only [hsub, if_true]
          have h8 := hparent (f1+1) (by omega) substs
          cases hres : print_def_path st (f1+1) ⟨d.krate, i⟩ substs with
          | ok pre => simp
          | error e =>
            rw [hres] at h8
            simpa using h8
        · simp only [hsub, Bool.false_eq_true, if_false]
          rw [if_neg (fun hcon => hcon.1 rfl)]
          by_cases htq : ((st.generics_of d).has_self = true ∧
              (st.generics_of d).parent = some ⟨d.krate, i⟩ ∧
              (substs.take ((st.generics_of d).parent_count ⊓ substs.length)).length =
                (st.generics_of d).parent_count ∧
              (st.generics_of ⟨d.krate, i⟩).parent_count = 0)
          · rw [if_pos htq]
            simp
          · rw [if_neg htq]
            have h8 := hparent (f1+1) (by omega)
              (substs.take ((st.generics_of d).parent_count ⊓ substs.length))
            cases hres : print_def_path st (f1+1) ⟨d.krate, i⟩
                (substs.take ((st.generics_of d).parent_count ⊓ substs.length)) with
            | ok pre => simp
            | error e =>
              rw [hres] at h8
              simpa using h8
      | Other name =>
        rw [print_def_path.eq_def]
        simp only [hdata, hp]
        by_cases hsub : substs.isEmpty = true
        · simp only [hsub, if_true]
          have h8 := hparent (f1+1) (by omega) substs
          cases hres : print_def_path st (f1+1) ⟨d.krate, i⟩ substs with
          | ok pre => simp
          | error e =>
            rw [hres] at h8
            simpa using h8
        · simp only [hsub, Bool.false_eq_true, if_false]
          by_cases hsc : ((DefPathData.Other name ≠ DefPathData.ClosureExpr) ∧
              ¬(st.generics_of d).params.isEmpty = true ∧
              (st.generics_of d).count ≤ substs.length)
          · rw [if_pos hsc]
            have hinner : print_def_path st (f1+1) d
                (substs.take ((st.generics_of d).parent_count ⊓ substs.length)) ≠
                .error .outOfFuel := by
              rw [print_def_path.eq_def]
              simp only [hdata, hp]
              by_cases hps : (substs.take
                  ((st.generics_of d).parent_count ⊓ substs.length)).isEmpty = true
              · simp only [hps, if_true]
                have h8 := hparent f1 (by omega)
                  (substs.take ((st.generics_of d).parent_count ⊓ substs.length))
                cases hres : print_def_path st f1 ⟨d.krate, i⟩
                    (substs.take ((st.generics_of d).parent_count ⊓ substs.length)) with
                | ok pre => simp
                | error e =>
                  rw [hres] at h8
                  simpa using h8
              · simp only [hps, Bool.false_eq_true, if_false]
                have hlen := List.length_take
                  ((st.generics_of d).parent_count ⊓ substs.length) substs
                have hplen : 0 < (st.generics_of d).params.length := by
                  cases hpar : (st.generics_of d).params with
                  | nil => rw [hpar] at hsc; simp at hsc
                  | cons a t => simp
                have hnsc2 : ¬((DefPathData.Other name ≠ DefPathData.ClosureExpr) ∧
                    ¬(st.generics_of d).params.isEmpty = true ∧
                    (st.generics_of d).count ≤ (substs.take
                      ((st.generics_of d).parent_count ⊓ substs.length)).length) := by
                  intro hcon
                  have h3 := hcon.2.2
                  rw [hlen] at h3
                  have h4 := hsc.2.2
                  simp only [Generics.count] at h3 h4
                  omega
                rw [if_neg hnsc2]
                by_cases htq : ((st.generics_of d).has_self = true ∧
                    (st.generics_of d).parent = some ⟨d.krate, i⟩ ∧
                    ((substs.take ((st.generics_of d).parent_count ⊓ substs.length)).take
                      ((st.generics_of d).parent_count ⊓
                        (substs.take ((st.generics_of d).parent_count ⊓
                          substs.length)).length)).length =
                      (st.generics_of d).parent_count ∧
                    (st.generics_of ⟨d.krate, i⟩).parent_count = 0)
                · rw [if_pos htq]
                  simp
                · rw [if_neg htq]
                  have h8 := hparent f1 (by omega)
                    ((substs.take ((st.generics_of d).parent_count ⊓ substs.length)).take
                      ((st.generics_of d).parent_count ⊓
                        (substs.take ((st.generics_of d).parent_count ⊓
                          substs.length)).length))
                  cases hres : print_def_path st f1 ⟨d.krate, i⟩
                      ((substs.take ((st.generics_of d).parent_count ⊓ substs.length)).take
                        ((st.generics_of d).parent_count ⊓
                          (substs.take ((st.generics_of d).parent_count ⊓
                            substs.length)).length)) with
                  | ok pre => simp
                  | error e =>
                    rw [hres] at h8
                    simpa using h8
            cases hres : print_def_path st (f1+1) d
                (substs.take ((st.generics_of d).parent_count ⊓ substs.length)) with
            | ok pre => simp
            | error e =>
              rw [hres] at hinner
              simpa using hinner
          · rw [if_neg hsc]
            by_cases htq : ((st.generics_of d).has_self = true ∧
                (st.generics_of d).parent = some ⟨d.krate, i⟩ ∧
                (substs.take ((st.generics_of d).parent_count ⊓ substs.length)).length =
                  (st.generics_of d).parent_count ∧
                (st.generics_of ⟨d.krate, i⟩).parent_count = 0)
            · rw [if_pos htq]
              simp
            · rw [if_neg htq]
              have h8 := hparent (f1+1) (by omega)
                (substs.take ((st.generics_of d).parent_count ⊓ substs.length))
              cases hres : print_def_path st (f1+1) ⟨d.krate, i⟩
                  (substs.take ((st.generics_of d).parent_count ⊓ substs.length)) with
              | ok pre => simp
              | error e =>
                rw [hres] at h8
                simpa using h8

/-- Witness for C5 at concrete stores: the well-formed crate root prints
as the single crate sink call, and the corrupt CrateRoot-with-parent key
aborts fatally. -/
theorem print_def_path_crate_root_witness :
    print_def_path stW 1 ⟨0, 0⟩ [] = .ok (.crate 0) ∧
    print_def_path stCorrupt 1 ⟨0, 0⟩ [] = .error .fatal :=
  ⟨(print_def_path_crate_root stW 0 ⟨0, 0⟩ [] rfl).2 rfl,
   (print_def_path_crate_root stCorrupt 0 ⟨0, 0⟩ [] rfl).1 rfl⟩

/-- Witness for C6 at the two concrete impls of stW: id 3 with a covering
substitution (instantiated) and id 4 with an uncovered parent parameter
(left uninstantiated). -/
theorem print_def_path_impl_witness :
    print_def_path stW 5 ⟨0, 3⟩ [] =
      print_impl_path stW 4 ⟨0, 3⟩ []
        (substTy [] (stW.type_of ⟨0, 3⟩))
        (substTraitRefOpt [] (stW.impl_trait_ref ⟨0, 3⟩)) ∧
    print_def_path stW 5 ⟨0, 4⟩ [] =
      print_impl_path stW 4 ⟨0, 4⟩ []
        (stW.type_of ⟨0, 4⟩) (stW.impl_trait_ref ⟨0, 4⟩) :=
  ⟨(print_def_path_impl stW 4 ⟨0, 3⟩ [] rfl).1 (by decide),
   (print_def_path_impl stW 4 ⟨0, 4⟩ [] rfl).2 (by decide)⟩

/-- Witness for C1 at the co-located impl 3 of stW (self type Adt 7,
parented at the impl's parent 0): the qualified form is produced. -/
theorem print_impl_path_qualified_iff_witness :
    print_impl_path stW 5 ⟨0, 3⟩ [] (.Adt ⟨0, 7⟩ []) none =
      .ok (.qualified (.Adt ⟨0, 7⟩ []) none) :=
  ((print_impl_path_qualified_iff stW 4 ⟨0, 3⟩ [] (.Adt ⟨0, 7⟩ []) none 0 rfl).1).mpr
    (Or.inl ⟨⟨0, 7⟩, rfl, rfl⟩)

/-- Witness for C10 at the non-co-located impl 4 of stW: the append form
prints the parent with the empty substitution and the result ignores the
substitution argument. -/
theorem print_impl_path_parent_empty_substs_witness :
    print_impl_path stW 5 ⟨0, 4⟩ [.type .Int] .Error none =
      (print_def_path stW 4 ⟨0, 0⟩ []).map
        (fun pre => .appendImpl pre (stW.def_key ⟨0, 4⟩).disambiguated_data
          .Error none) ∧
    print_impl_path stW 5 ⟨0, 4⟩ [.type .Int] .Error none =
      print_impl_path stW 5 ⟨0, 4⟩ [] .Error none :=
  print_impl_path_parent_empty_substs stW 4 ⟨0, 4⟩ [.type .Int] [] .Error none 0
    rfl rfl rfl

/-- Witness for C3 at the trait method m (id 6 of stW) with a covering
one-entry parent substitution: the prefix is the qualified trait
reference built from the trait id 5 and the parent substitution. -/
theorem print_def_path_trait_qualify_witness :
    print_def_path stW 10 ⟨0, 6⟩ [.type (.Adt ⟨0, 7⟩ [])] =
      .ok (.append (.qualified (.Adt ⟨0, 7⟩ [])
        (some ⟨⟨0, 5⟩, [.type (.Adt ⟨0, 7⟩ [])]⟩)) ⟨.Other "m", 0⟩) := by
  have h := (print_def_path_trait_qualify stW 9 ⟨0, 6⟩ [.type (.Adt ⟨0, 7⟩ [])] 5
    (by decide) (by decide) rfl (by simp) (by decide)).1 (by decide)
  exact h.trans rfl

/-- Witness for C4 (amended) at the item foo (id 2 of stW) with a
non-empty, covering, non-elidable substitution. -/
theorem print_def_path_generic_args_shape_witness :
    print_def_path stW 10 ⟨0, 2⟩ [.type .Int] =
      (print_def_path stW 9 ⟨0, 2⟩
        ([GenArg.type .Int].take (min (stW.generics_of ⟨0, 2⟩).parent_count
          [GenArg.type .Int].length))).map
        (fun pre => .genericArgs pre
          (generic_args_to_print stW (stW.generics_of ⟨0, 2⟩) [.type .Int])) :=
  print_def_path_generic_args_shape stW 9 ⟨0, 2⟩ [.type .Int] 1
    (by decide) (by decide) (by decide) rfl (by simp)
    (by rw [show generic_args_to_print stW (stW.generics_of ⟨0, 2⟩) [.type .Int] =
        [.type .Int] from rfl]; simp)
    (by decide)

/-- Witness for C8 at foo (id 2 of stW), two parent steps from the crate
root: fuel 7 = 3 * 2 + 1 suffices and the run does not exhaust fuel. -/
theorem print_def_path_terminates_witness :
    reaches_root stW 2 ⟨0, 2⟩ = true ∧
    print_def_path stW 7 ⟨0, 2⟩ [] ≠ .error .outOfFuel :=
  ⟨rfl, print_def_path_terminates.1 stW 2 ⟨0, 2⟩ rfl 7 (by decide) []⟩

end RustcTyPrint
